import Mathlib

/-!
Verification development for the manifest-driven PDF fetcher
(`milestone1_collection/utils.py`, function `download_pdf_from_presigned`).

The Python function is shallowly embedded below.  Text is modelled as
`List Char` (the manifest is read in text mode; downloaded bytes are ASCII
conflated with characters), the filesystem as an association list from path
strings to entries, and the single HTTP GET performed by one call as a
`RemoteBehavior` record describing how the remote answers that request.
-/

/-! ### Basic character and string helpers -/

/-- Split a character list on every occurrence of `sep` (plain split:
`splitCh sep []` is `[[]]`, like Python `"".split(sep)`). -/
def splitCh (sep : Char) : List Char → List (List Char)
  | [] => [[]]
  | c :: cs =>
    if c = sep then [] :: splitCh sep cs
    else
      match splitCh sep cs with
      | [] => [[c]]
      | r :: rs => (c :: r) :: rs

/-- Whitespace as stripped by Python `str.strip()` (ASCII whitespace,
the C1 separators, and the Unicode space separators). -/
def isPySpace (c : Char) : Bool :=
  c.toNat ∈ [9, 10, 11, 12, 13, 28, 29, 30, 31, 32, 0x85, 0xA0, 0x1680,
    0x2000, 0x2001, 0x2002, 0x2003, 0x2004, 0x2005, 0x2006, 0x2007, 0x2008,
    0x2009, 0x200A, 0x2028, 0x2029, 0x202F, 0x205F, 0x3000]

/-- Python `str.strip()`: remove leading and trailing whitespace. -/
def pyStrip (l : List Char) : List Char :=
  ((l.dropWhile isPySpace).reverse.dropWhile isPySpace).reverse

/-- Lower-case one character.  Models Python `str.lower()` on the ASCII
range, which is the only range relevant to the checks performed by the
source (the `"http"` scheme test and the `".pdf"` suffix test: no
character outside ASCII lower-cases onto `h`, `t`, `p`, `.`, `d` or `f`). -/
def lowerChar (c : Char) : Char :=
  if 'A' ≤ c ∧ c ≤ 'Z' then Char.ofNat (c.toNat + 32) else c

/-- Python `str.lower()` (see `lowerChar`). -/
def pyLower (l : List Char) : List Char := l.map lowerChar

/-- `startsWithS pat l` is true when `pat` is an initial segment of `l`
(Python `str.startswith`). -/
def startsWithS : List Char → List Char → Bool
  | [], _ => true
  | _ :: _, [] => false
  | p :: ps, x :: xs => p = x && startsWithS ps xs

/-- `endsWithS pat l` is true when `pat` is a final segment of `l`
(Python `str.endswith`). -/
def endsWithS (pat l : List Char) : Bool := startsWithS pat.reverse l.reverse

/-- Decimal digit character, as Python integer formatting renders it. -/
def digitChar : Nat → Char
  | 0 => '0' | 1 => '1' | 2 => '2' | 3 => '3' | 4 => '4'
  | 5 => '5' | 6 => '6' | 7 => '7' | 8 => '8' | _ => '9'

/-- Decimal rendering of a natural number, fuel-driven so that it is
structurally recursive (the fuel `n + 1` always suffices). -/
def natStrA : Nat → Nat → List Char
  | 0, _ => []
  | fuel + 1, n =>
    if n < 10 then [digitChar n]
    else natStrA fuel (n / 10) ++ [digitChar (n % 10)]

/-- Python `str(i)` for a natural number `i` (decimal, no sign). -/
def natStr (n : Nat) : List Char := natStrA (n + 1) n

/-- Decimal value of a digit string; left inverse of `natStr`. -/
def natVal (l : List Char) : Nat :=
  l.foldl (fun a c => a * 10 + (c.toNat - 48)) 0

/-! ### The CSV reader (`csv.reader(f, delimiter="\t")`)

The source parses the manifest with Python's `csv` module, not with a plain
string split.  The manifest is opened with `newline=""` (line 42), so the
file layer splits lines at `\n`, `\r\n` and bare `\r` (universal newlines,
endings untranslated), and the reader sees each line with its own ending.
`csvRun` is the reader's character-level state machine for the default
dialect (quote character `"`, doubled quotes, non-strict) with tab as the
delimiter, flattened over the whole content: a `\r` outside quotes ends
the record like `\n` does, and the state after it eats one following `\n`
(a `\r\n` pair is a single terminator), yields an empty record for a
following bare `\r`, and otherwise starts the next record — the reader's
"new-line character seen in unquoted field" error is unreachable through
this file layer, because a line never continues past a bare `\r`.  Inside
quotes, `\r` and `\n` are data (the quoted field spans lines).  Every
character appended to a field passes the field-size check: growing a field
beyond `field_size_limit()` (default 131072 characters) raises
`csv.Error ("field larger than field limit")`; that is the `.error`
outcome.  Fields and records are accumulated in reverse. -/

/-- `csv.field_size_limit()`: the default maximum field size. -/
def fieldLimit : Nat := 131072

/-- States of the CSV reader. -/
inductive CMode
  | sr  -- start of record
  | sf  -- start of field
  | inf -- in an unquoted field
  | q   -- in a quoted field
  | qq  -- quote seen inside a quoted field
  | cr  -- after a record-terminating carriage return
deriving DecidableEq, Repr

/-- Flush the state at end of input (the reader yields any pending record,
also from inside an unterminated quoted field, matching the non-strict
Python reader). -/
def csvFinish : CMode → List Char → List (List Char) → List (List (List Char)) →
    List (List (List Char))
  | .sr, _, _, out => out.reverse
  | .cr, _, _, out => out.reverse
  | .sf, _, rcd, out => ((([] : List Char) :: rcd).reverse :: out).reverse
  | _, fld, rcd, out => ((fld.reverse :: rcd).reverse :: out).reverse

/-- One run of the CSV reader: mode, current field (reversed), current
record (reversed), output records (reversed), remaining input.  The
field-size check guards every append to an already started field; the
first character of a field needs no check, since the limit is positive. -/
def csvRun : CMode → List Char → List (List Char) → List (List (List Char)) →
    List Char → Except String (List (List (List Char)))
  | m, fld, rcd, out, [] => .ok (csvFinish m fld rcd out)
  | .sr, _, _, out, c :: cs =>
    if c = '\n' then csvRun .sr [] [] ([] :: out) cs
    else if c = '\r' then csvRun .cr [] [] ([] :: out) cs
    else if c = '\t' then csvRun .sf [] [[]] out cs
    else if c = '"' then csvRun .q [] [] out cs
    else csvRun .inf [c] [] out cs
  | .sf, _, rcd, out, c :: cs =>
    if c = '\n' then csvRun .sr [] [] ((([] : List Char) :: rcd).reverse :: out) cs
    else if c = '\r' then csvRun .cr [] [] ((([] : List Char) :: rcd).reverse :: out) cs
    else if c = '\t' then csvRun .sf [] ([] :: rcd) out cs
    else if c = '"' then csvRun .q [] rcd out cs
    else csvRun .inf [c] rcd out cs
  | .inf, fld, rcd, out, c :: cs =>
    if c = '\n' then csvRun .sr [] [] ((fld.reverse :: rcd).reverse :: out) cs
    else if c = '\r' then csvRun .cr [] [] ((fld.reverse :: rcd).reverse :: out) cs
    else if c = '\t' then csvRun .sf [] (fld.reverse :: rcd) out cs
    else if fld.length ≥ fieldLimit then .error "field larger than field limit"
    else csvRun .inf (c :: fld) rcd out cs
  | .q, fld, rcd, out, c :: cs =>
    if c = '"' then csvRun .qq fld rcd out cs
    else if fld.length ≥ fieldLimit then .error "field larger than field limit"
    else csvRun .q (c :: fld) rcd out cs
  | .qq, fld, rcd, out, c :: cs =>
    if c = '"' then
      if fld.length ≥ fieldLimit then .error "field larger than field limit"
      else csvRun .q ('"' :: fld) rcd out cs
    else if c = '\n' then csvRun .sr [] [] ((fld.reverse :: rcd).reverse :: out) cs
    else if c = '\r' then csvRun .cr [] [] ((fld.reverse :: rcd).reverse :: out) cs
    else if c = '\t' then csvRun .sf [] (fld.reverse :: rcd) out cs
    else if fld.length ≥ fieldLimit then .error "field larger than field limit"
    else csvRun .inf (c :: fld) rcd out cs
  | .cr, _, _, out, c :: cs =>
    if c = '\n' then csvRun .sr [] [] out cs
    else if c = '\r' then csvRun .cr [] [] ([] :: out) cs
    else if c = '\t' then csvRun .sf [] [[]] out cs
    else if c = '"' then csvRun .q [] [] out cs
    else csvRun .inf [c] [] out cs

/-- `csv.reader(f, delimiter="\t")` applied to the whole manifest text:
the sequence of records, each a list of fields. -/
def csvReader (content : List Char) : Except String (List (List (List Char))) :=
  csvRun .sr [] [] [] content

/-! ### The manifest rows (source lines 41-49) -/

/-- One parsed manifest row: `rel_meca_path`, `s3_pdf_key`, `presigned_url`,
each whitespace-stripped. -/
structure ManifestRow where
  rel : List Char
  key : List Char
  url : List Char
deriving DecidableEq, Repr

/-- The skip-missing test of line 47: `url.lower().startswith("http")`
on the already stripped URL. -/
def urlOk (url : List Char) : Bool := startsWithS "http".data (pyLower url)

/-- The row-collection loop of lines 43-49: records with fewer than three
fields (including empty records) are skipped; the first three fields of a
kept record are stripped; when `skipMissing` is set, rows whose stripped
URL does not case-insensitively start with `http` are dropped. -/
def rowsOf : List (List (List Char)) → Bool → List ManifestRow
  | [], _ => []
  | (f0 :: f1 :: f2 :: _) :: rest, skipMissing =>
    let url := pyStrip f2
    if skipMissing && !urlOk url then rowsOf rest skipMissing
    else ⟨pyStrip f0, pyStrip f1, url⟩ :: rowsOf rest skipMissing
  | _ :: rest, skipMissing => rowsOf rest skipMissing

/-! ### Errors

One constructor per distinct failure exit of the source (raise site or
propagated library exception), named after the specification's error
taxonomy:
* `manifestNotFound` — line 39, `FileNotFoundError ("TSV not found")`;
* `isADirectory` — `tsv.open()` raising `IsADirectoryError` when the
  path exists but is a directory (line 42);
* `csvFailure` — a `csv.Error` propagating out of the reader loop (a
  field over the field-size limit);
* `emptyManifest` — line 52, `ValueError ("No valid rows ...")`;
* `indexOutOfRange` — line 54, `IndexError` reporting index and the
  top of the valid range `0..len-1`;
* `httpStatusError` — line 83, `ValueError ("HTTP {status} fetching
  presigned URL ...")`, carrying the status code;
* `transferError` — a network-level failure: in the requests branch the
  client exception propagates raw, in the urllib branch line 100 raises
  `ValueError ("Download failed: {e}")` wrapping the cause `e`, which is
  either an `HTTPError` carrying a status or another network error;
* `invalidFormat` — line 108, `ValueError ("Downloaded file does not
  look like a PDF ...")`;
* `osFailure` — any other propagating `OSError` (mkdir on an existing
  non-directory, opening a missing file, ...). -/
inductive TransferCause
  | httpError (status : Nat)
  | network (msg : String)
deriving DecidableEq, Repr

/-- Failure outcomes of one call (see the constructor table above). -/
inductive DlErr
  | manifestNotFound (path : List Char)
  | isADirectory (path : List Char)
  | csvFailure (msg : String)
  | emptyManifest
  | indexOutOfRange (index : Int) (hi : Int)
  | httpStatusError (status : Nat)
  | transferError (cause : TransferCause)
  | invalidFormat
  | osFailure (msg : String)
deriving DecidableEq, Repr

instance {ε α : Type} [DecidableEq ε] [DecidableEq α] : DecidableEq (Except ε α)
  | .error a, .error b => decidable_of_iff (a = b) (by simp)
  | .ok a, .ok b => decidable_of_iff (a = b) (by simp)
  | .error _, .ok _ => .isFalse (fun h => Except.noConfusion h)
  | .ok _, .error _ => .isFalse (fun h => Except.noConfusion h)

/-- Is the outcome an error? -/
def isErr : Except DlErr α → Bool
  | .error _ => true
  | .ok _ => false

/-- Row selection, lines 51-56: empty filtered list fails first, then the
bounds check `index < 0 or index >= len(rows)` with the error reporting
the valid range `0..len-1`, and only then is the row read. -/
def selectRow (rows : List ManifestRow) (index : Int) : Except DlErr ManifestRow :=
  if rows.length = 0 then .error .emptyManifest
  else if h : index < 0 ∨ (rows.length : Int) ≤ index then
    .error (.indexOutOfRange index ((rows.length : Int) - 1))
  else .ok (rows.get ⟨index.toNat, by omega⟩)

/-! ### Filename derivation (source lines 62-67) -/

/-- Everything up to (excluding) the first occurrence of `stop`. -/
def takeUntil (stop : Char) (l : List Char) : List Char :=
  l.takeWhile (· != stop)

/-- Everything after the first occurrence of `stop` (all of `l` absent it). -/
def afterChar (stop : Char) (l : List Char) : List Char :=
  (l.dropWhile (· != stop)).drop 1

/-- Split at the last occurrence of `stop`: `some (before, after)`, or
`none` when `stop` does not occur. -/
def breakLast (stop : Char) (l : List Char) : Option (List Char × List Char) :=
  let tail := (l.reverse.takeWhile (· != stop)).reverse
  if tail.length = l.length then none
  else some (l.take (l.length - tail.length - 1), tail)

/-- `pathlib.PurePosixPath(p).name`: the last path component, after
dropping empty segments and `.` segments (pathlib keeps `..`). -/
def pathName (p : List Char) : List Char :=
  (((splitCh '/' p).filter (fun seg => !seg.isEmpty && seg != ['.'])).getLast?).getD []

/-- `pathlib` `stem`/`suffix` split of a file name: the suffix starts at
the last dot, provided that dot is neither the first nor the last
character of the name. -/
def nameSuffixSplit (name : List Char) : List Char × List Char :=
  match breakLast '.' name with
  | some (pre, post) =>
    if 0 < pre.length && 0 < post.length then (pre, '.' :: post) else (name, [])
  | none => (name, [])

/-- ASCII letter test (CPython requires the scheme to start with one). -/
def isAsciiAlpha (c : Char) : Bool :=
  ('a' ≤ c && c ≤ 'z') || ('A' ≤ c && c ≤ 'Z')

/-- Characters CPython allows inside a URL scheme. -/
def isSchemeChar (c : Char) : Bool :=
  isAsciiAlpha c || ('0' ≤ c && c ≤ '9') || c = '+' || c = '-' || c = '.'

/-- The parameter split `urllib.parse._splitparams`: drop `;params` from
the last path segment. -/
def splitParams (p : List Char) : List Char :=
  match breakLast '/' p with
  | some (pre, last) =>
    if last.any (· == ';') then pre ++ '/' :: takeUntil ';' last else p
  | none => if p.any (· == ';') then takeUntil ';' p else p

/-- `urllib.parse.urlparse(url).path`: strip the fragment (first `#`),
then the query (first `?`), recognise and drop a leading scheme
(letters/digits/`+-.` before the first `:`, starting with a letter),
drop a `//netloc` (up to the next `/`), and finally drop `;params`. -/
def pyUrlPath (url : List Char) : List Char :=
  let noQuery := takeUntil '?' (takeUntil '#' url)
  let beforeColon := takeUntil ':' noQuery
  let afterScheme :=
    match beforeColon with
    | [] => noQuery
    | c :: _ =>
      if beforeColon.length < noQuery.length && isAsciiAlpha c &&
          beforeColon.all isSchemeChar
      then afterChar ':' noQuery else noQuery
  let noNetloc :=
    match afterScheme with
    | '/' :: '/' :: rest => rest.dropWhile (· != '/')
    | _ => afterScheme
  splitParams noNetloc

/-- Lines 62-67: the destination filename.  `Path(s3key).name` when the
stripped key is non-empty, else `Path(urlparse(url).path).name`; the
literal `paper.pdf` when that is empty; `.pdf` appended unless already
present case-insensitively. -/
def deriveName (s3key url : List Char) : List Char :=
  let name0 := if s3key ≠ [] then pathName s3key else pathName (pyUrlPath url)
  let name1 := if name0 = [] then "paper.pdf".data else name0
  if endsWithS ".pdf".data (pyLower name1) then name1 else name1 ++ ".pdf".data

/-- The filename-derivation contract in the claim's own words: prefer the
basename of `storageKey` when `storageKey` is non-empty, otherwise the
final path segment of `presignedUrl`, otherwise the literal `paper.pdf`;
then append `.pdf` unless the name already ends in `.pdf`
case-insensitively.  (Stated from the specification, to be compared with
`deriveName`, which is translated from the source.) -/
def claimDerivedName (storageKey presignedUrl : List Char) : List Char :=
  let derived :=
    if storageKey = [] then pathName (pyUrlPath presignedUrl) else pathName storageKey
  let named := if derived = [] then "paper.pdf".data else derived
  if endsWithS ".pdf".data (pyLower named) then named else named ++ ".pdf".data

/-! ### Filesystem model -/

/-- A filesystem entry: a regular file with its content (bytes conflated
with characters; the manifest and the PDFs at stake are byte strings), or
a directory. -/
inductive FsEntry
  | file (content : List Char)
  | dir
deriving DecidableEq, Repr

/-- The filesystem: a finite map from path strings to entries, as an
association list (first match wins). -/
def FS := List (List Char × FsEntry)

instance : DecidableEq FS := by unfold FS; infer_instance

/-- Path lookup. -/
def fsLookup : FS → List Char → Option FsEntry
  | [], _ => none
  | (k, v) :: rest, p => if k = p then some v else fsLookup rest p

/-- Remove every binding of a path (`os.remove`; the model keeps the map
functional by erasing all stale bindings). -/
def eraseKey : FS → List Char → FS
  | [], _ => []
  | (k, v) :: rest, p =>
    if k = p then eraseKey rest p else (k, v) :: eraseKey rest p

/-- Create or truncate-and-write a file (`open(path, "wb")` + writes). -/
def setFile (fs : FS) (p : List Char) (content : List Char) : FS :=
  (p, FsEntry.file content) :: eraseKey fs p

/-- `Path.exists()`: true for files and directories alike. -/
def containsPath (fs : FS) (p : List Char) : Bool := (fsLookup fs p).isSome

/-- `str(target_dir / name)` for an already-normalised directory string
(pathlib drops a `.` directory; other directory strings get a single
separator).  Path normalisation beyond this is not modelled: no claim
depends on it. -/
def joinPath (td name : List Char) : List Char :=
  if td = ['.'] then name else td ++ '/' :: name

/-! ### Collision avoidance (source lines 71-77) -/

/-- `dest.stem` of the candidate destination. -/
def candBase (dest : List Char) : List Char :=
  (nameSuffixSplit (pathName dest)).1

/-- `dest.suffix or ".pdf"` of the candidate destination. -/
def candSuffix (dest : List Char) : List Char :=
  let s := (nameSuffixSplit (pathName dest)).2
  if s.isEmpty then ".pdf".data else s

/-- The `i`-th probe path `target_dir / f"{base} ({i}){suffix}"`. -/
def destCand (td dest : List Char) (i : Nat) : List Char :=
  joinPath td ((candBase dest ++ " (".data) ++ natStr i ++ (")".data ++ candSuffix dest))

/-- The renaming loop body: try probe `i`, `i+1`, ... while the probe
exists.  Structured with explicit fuel; `probeLoop` with fuel
`fs.length + 1` always finds a free probe (see `exists_free_probe`). -/
def probeLoop (fs : FS) (td dest : List Char) : Nat → Nat → List Char
  | 0, i => destCand td dest i
  | fuel + 1, i =>
    if containsPath fs (destCand td dest i) then probeLoop fs td dest fuel (i + 1)
    else destCand td dest i

/-- Lines 71-77 (`overwrite=False` only): keep the destination if it does
not exist, otherwise probe `"{base} (1){suffix}"`, `"{base} (2){suffix}"`,
... until a non-existing path is found. -/
def resolveDest (fs : FS) (td dest : List Char) : List Char :=
  if containsPath fs dest then probeLoop fs td dest (fs.length + 1) 1 else dest

/-! ### Transfer and validation (source lines 80-110) -/

/-- How the remote answers the single GET this call performs:
`connectError` — the request itself fails (DNS, refused, timeout before
headers); otherwise `status` is the final response status (redirects are
followed by both clients), `chunks` the body chunks delivered in order,
and `streamError` a network failure raised after those chunks. -/
structure RemoteBehavior where
  connectError : Option String
  status : Nat
  chunks : List (List Char)
  streamError : Option String
deriving DecidableEq, Repr

/-- Lines 80-87, the `requests` branch: a request-level failure propagates
as the client's own exception (no cleanup runs); a non-200 status raises
before the destination is opened; otherwise the destination is created
and the delivered chunks written (`if chunk:` skips empty ones).  A
mid-stream failure propagates after the `with` block closes the file: the
partial file is left in place. -/
def requestsTransfer (re : RemoteBehavior) (fs : FS) (dest : List Char) :
    FS × Except DlErr Unit :=
  match re.connectError with
  | some msg => (fs, .error (.transferError (.network msg)))
  | none =>
    if re.status ≠ 200 then (fs, .error (.httpStatusError re.status))
    else
      let body := (re.chunks.filter (fun c => !c.isEmpty)).flatten
      let fs1 := setFile fs dest body
      match re.streamError with
      | some msg => (fs1, .error (.transferError (.network msg)))
      | none => (fs1, .ok ())

/-- Lines 89-100, the `urllib` branch: `urlopen` raises `HTTPError` for
any non-2xx status and `URLError` for network failures, both before the
destination is opened; the reader loop stops at the first empty chunk
(EOF).  Every exception is caught, `os.remove(dest)` is attempted
(silently ignoring a missing file), and a wrapping failure is raised. -/
def urllibTransfer (re : RemoteBehavior) (fs : FS) (dest : List Char) :
    FS × Except DlErr Unit :=
  match re.connectError with
  | some msg => (eraseKey fs dest, .error (.transferError (.network msg)))
  | none =>
    if re.status < 200 ∨ 300 ≤ re.status then
      (eraseKey fs dest, .error (.transferError (.httpError re.status)))
    else
      let body := (re.chunks.takeWhile (fun c => !c.isEmpty)).flatten
      if re.chunks.any (fun c => c.isEmpty) then (setFile fs dest body, .ok ())
      else
        match re.streamError with
        | some msg => (eraseKey fs dest, .error (.transferError (.network msg)))
        | none => (setFile fs dest body, .ok ())

/-- Lines 102-110: read the first five bytes of the destination; if the
first four are not `%PDF`, delete the file and fail; otherwise the
destination path is the result. -/
def validateStage (fs : FS) (dest : List Char) : FS × Except DlErr (List Char) :=
  match fsLookup fs dest with
  | some (.file bytes) =>
    let magic := bytes.take 5
    if magic.take 4 = "%PDF".data then (fs, .ok dest)
    else (eraseKey fs dest, .error .invalidFormat)
  | some .dir => (fs, .error (.osFailure "IsADirectoryError"))
  | none => (fs, .error (.osFailure "FileNotFoundError"))

/-- Transfer (lines 80-100, branch chosen by `requests` availability)
followed by signature validation (lines 102-110). -/
def transferAndValidate (useRequests : Bool) (re : RemoteBehavior) (fs : FS)
    (dest : List Char) : FS × Except DlErr (List Char) :=
  match (if useRequests then requestsTransfer re fs dest else urllibTransfer re fs dest) with
  | (fs1, .error e) => (fs1, .error e)
  | (fs1, .ok _) => validateStage fs1 dest

/-! ### The whole call -/

/-- `Path(out_dir or ".")`: `None` and the empty string fall back to the
current directory. -/
def effOutDir : Option (List Char) → List Char
  | none => ['.']
  | some [] => ['.']
  | some s => s

/-- `target_dir.mkdir(parents=True, exist_ok=True)`: create the directory
if absent; an existing directory is fine; an existing non-directory makes
`mkdir` raise `FileExistsError`.  (Parent entries are not modelled
separately: a directory is one entry.) -/
def mkdirAll (fs : FS) (td : List Char) : Except DlErr FS :=
  match fsLookup fs td with
  | none => .ok ((td, FsEntry.dir) :: fs)
  | some .dir => .ok fs
  | some (.file _) => .error (.osFailure "FileExistsError")

/-- The full call `download_pdf_from_presigned` (source lines 13-110):
existence check on the manifest path, CSV parse, row filter and selection,
output-directory creation, filename derivation, collision avoidance
(unless `overwrite`), transfer in the branch selected by the availability
of `requests`, and signature validation.  Returns the final filesystem and
either the destination path (which line 110 then absolutises) or the
failure.  `timeout` has no observable effect in this timeless model. -/
def download_pdf_from_presigned (useRequests : Bool) (re : RemoteBehavior)
    (fs : FS) (tsvPath : List Char) (index : Int) (outDir : Option (List Char))
    (skipMissing : Bool) (timeout : Nat) (overwrite : Bool) :
    FS × Except DlErr (List Char) :=
  match fsLookup fs tsvPath with
  | none => (fs, .error (.manifestNotFound tsvPath))
  | some .dir => (fs, .error (.isADirectory tsvPath))
  | some (.file content) =>
    match csvReader content with
    | .error msg => (fs, .error (.csvFailure msg))
    | .ok records =>
      let rows := rowsOf records skipMissing
      match selectRow rows index with
      | .error e => (fs, .error e)
      | .ok row =>
        let targetDir := effOutDir outDir
        match mkdirAll fs targetDir with
        | .error e => (fs, .error e)
        | .ok fs1 =>
          let name := deriveName row.key row.url
          let dest0 := joinPath targetDir name
          let dest := if overwrite then dest0 else resolveDest fs1 targetDir dest0
          let _ := timeout
          transferAndValidate useRequests re fs1 dest

/-! ### Filesystem lemmas -/

theorem fsLookup_eraseKey_self (fs : FS) (p : List Char) :
    fsLookup (eraseKey fs p) p = none := by
  induction fs with
  | nil => rfl
  | cons kv rest ih =>
    obtain ⟨k, v⟩ := kv
    by_cases h : k = p <;> simp [eraseKey, fsLookup, h, ih]

theorem eraseKey_of_lookup_none (fs : FS) (p : List Char)
    (h : fsLookup fs p = none) : eraseKey fs p = fs := by
  induction fs with
  | nil => rfl
  | cons kv rest ih =>
    obtain ⟨k, v⟩ := kv
    by_cases hk : k = p
    · simp [fsLookup, hk] at h
    · simp [fsLookup, hk] at h
      simp [eraseKey, hk, ih h]

theorem fsLookup_setFile_self (fs : FS) (p b : List Char) :
    fsLookup (setFile fs p b) p = some (.file b) := by
  simp [setFile, fsLookup]

/-! ### C3 — index out of range -/

/-- C3: for a filtered row sequence of length at least one, any index
below `0` or at least the length fails with `indexOutOfRange`, reporting
the top of the valid range `0..length-1`; the bound is the length of the
filtered sequence `rowsOf records skipMissing`, and selection never reads
out of bounds (it is total and only reads a row under a proof that the
index is in range). -/
theorem claim3_index_out_of_range (records : List (List (List Char)))
    (skipMissing : Bool) (index : Int)
    (hlen : 1 ≤ (rowsOf records skipMissing).length)
    (hidx : index < 0 ∨ ((rowsOf records skipMissing).length : Int) ≤ index) :
    selectRow (rowsOf records skipMissing) index =
      .error (.indexOutOfRange index (((rowsOf records skipMissing).length : Int) - 1)) := by
  unfold selectRow
  rw [if_neg (by omega), dif_pos hidx]

/-- Witness for C3 at a concrete manifest (one kept row) and index `5`. -/
theorem claim3_index_out_of_range_witness :
    (1 ≤ (rowsOf [["a".data, "b".data, "http://x".data]] true).length ∧
      ((5 : Int) < 0 ∨ ((rowsOf [["a".data, "b".data, "http://x".data]] true).length : Int) ≤ 5)) ∧
    selectRow (rowsOf [["a".data, "b".data, "http://x".data]] true) 5 =
      .error (.indexOutOfRange 5
        (((rowsOf [["a".data, "b".data, "http://x".data]] true).length : Int) - 1)) :=
  ⟨⟨by decide, by decide⟩,
    claim3_index_out_of_range [["a".data, "b".data, "http://x".data]] true 5
      (by decide) (by decide)⟩

/-! ### C8 — manifest existence check -/

/-- C8 (amended): a manifest path bound to no filesystem entry fails
immediately with `manifestNotFound` and the filesystem is untouched (no
directory created, no file written); but a path bound to a directory
passes the `exists()` check of line 38 and fails only when line 42 opens
it, with an `IsADirectoryError`, not with `manifestNotFound` — still with
the filesystem untouched. -/
theorem claim8_manifest_check_amended :
    (∀ (useReq : Bool) (re : RemoteBehavior) (fs : FS) (tsvPath : List Char)
        (index : Int) (outDir : Option (List Char)) (skipMissing : Bool)
        (timeout : Nat) (overwrite : Bool),
      fsLookup fs tsvPath = none →
      download_pdf_from_presigned useReq re fs tsvPath index outDir skipMissing
          timeout overwrite = (fs, .error (.manifestNotFound tsvPath))) ∧
    (∀ (useReq : Bool) (re : RemoteBehavior) (fs : FS) (tsvPath : List Char)
        (index : Int) (outDir : Option (List Char)) (skipMissing : Bool)
        (timeout : Nat) (overwrite : Bool),
      fsLookup fs tsvPath = some .dir →
      download_pdf_from_presigned useReq re fs tsvPath index outDir skipMissing
          timeout overwrite = (fs, .error (.isADirectory tsvPath))) := by
  constructor <;>
    · intro useReq re fs tsvPath index outDir skipMissing timeout overwrite h
      simp [download_pdf_from_presigned, h]

/-- Witness for C8 at a concrete missing manifest path. -/
theorem claim8_manifest_check_amended_witness :
    fsLookup [] "absent.tsv".data = none ∧
    download_pdf_from_presigned true ⟨none, 200, [], none⟩ [] "absent.tsv".data 0
        none true 60 false = ([], .error (.manifestNotFound "absent.tsv".data)) :=
  ⟨rfl, claim8_manifest_check_amended.1 true ⟨none, 200, [], none⟩ [] "absent.tsv".data 0
    none true 60 false rfl⟩

/-- C8 counterexample: a manifest path that references a directory — so
not an existing regular file — does not fail with `manifestNotFound`
(the call fails, but with the open-time `isADirectory` failure). -/
theorem claim8_directory_manifest_cex :
    (download_pdf_from_presigned true ⟨none, 200, [], none⟩ [("m".data, FsEntry.dir)]
        "m".data 0 none true 60 false).2 ≠ .error (.manifestNotFound "m".data) ∧
    isErr (download_pdf_from_presigned true ⟨none, 200, [], none⟩ [("m".data, FsEntry.dir)]
        "m".data 0 none true 60 false).2 = true := by
  constructor
  · decide
  · decide

/-! ### C9 — defaulting of the output directory -/

/-- C9: passing `None` or the empty string as `out_dir` behaves exactly
like passing `"."` — line 59 computes `Path(out_dir or ".")`, so the
whole call is unchanged and the destination is resolved in the current
working directory. -/
theorem claim9_out_dir_default (useReq : Bool) (re : RemoteBehavior) (fs : FS)
    (tsvPath : List Char) (index : Int) (skipMissing : Bool) (timeout : Nat)
    (overwrite : Bool) :
    download_pdf_from_presigned useReq re fs tsvPath index none skipMissing
        timeout overwrite =
      download_pdf_from_presigned useReq re fs tsvPath index (some ".".data)
        skipMissing timeout overwrite ∧
    download_pdf_from_presigned useReq re fs tsvPath index (some []) skipMissing
        timeout overwrite =
      download_pdf_from_presigned useReq re fs tsvPath index (some ".".data)
        skipMissing timeout overwrite :=
  ⟨rfl, rfl⟩

/-! ### C10 — the signature validator -/

/-- C10: after a successful transfer, a destination file shorter than four
bytes (in particular an empty body from a 200 response) is rejected with
`invalidFormat` and deleted; and the validator looks only at the leading
bytes — any file whose first four bytes are `%PDF` is accepted unchanged,
whatever follows. -/
theorem claim10_pdf_signature :
    (∀ (fs : FS) (dest bytes : List Char), fsLookup fs dest = some (.file bytes) →
      bytes.length < 4 →
      validateStage fs dest = (eraseKey fs dest, .error .invalidFormat) ∧
        fsLookup (validateStage fs dest).1 dest = none) ∧
    (∀ (fs : FS) (dest bytes : List Char), fsLookup fs dest = some (.file bytes) →
      bytes.take 4 = "%PDF".data →
      validateStage fs dest = (fs, .ok dest)) := by
  constructor
  · intro fs dest bytes hl hlen
    have hne : ¬ (bytes.take 5).take 4 = "%PDF".data := by
      intro h
      have h4 : ((bytes.take 5).take 4).length = 4 := by rw [h]; rfl
      simp [List.length_take] at h4
      omega
    refine ⟨by simp [validateStage, hl, hne], ?_⟩
    simp [validateStage, hl, hne, fsLookup_eraseKey_self]
  · intro fs dest bytes hl hmagic
    have h4 : (bytes.take 5).take 4 = "%PDF".data := by
      rw [List.take_take]
      simpa using hmagic
    simp [validateStage, hl, h4]

/-- Witness for C10: a one-byte file is rejected and removed. -/
theorem claim10_pdf_signature_witness :
    (fsLookup [("p".data, FsEntry.file ['%'])] "p".data = some (.file ['%']) ∧
      (['%'] : List Char).length < 4) ∧
    (validateStage [("p".data, FsEntry.file ['%'])] "p".data =
        (eraseKey [("p".data, FsEntry.file ['%'])] "p".data, .error .invalidFormat) ∧
      fsLookup (validateStage [("p".data, FsEntry.file ['%'])] "p".data).1 "p".data = none) :=
  ⟨⟨by decide, by decide⟩,
    claim10_pdf_signature.1 [("p".data, FsEntry.file ['%'])] "p".data ['%']
      (by decide) (by decide)⟩

/-! ### C4 — the skip-missing filter -/

/-- C4: with `skipMissing` set, the kept rows are exactly the well-formed
rows whose stripped, lower-cased URL starts with `http`, in file order
(the loop of lines 43-49 is the filter of that predicate over the
`skipMissing=False` parse); with `skipMissing` unset, every well-formed
record yields a row. -/
theorem claim4_skip_missing_filter (records : List (List (List Char))) :
    rowsOf records true = (rowsOf records false).filter (fun r => urlOk r.url) ∧
    (rowsOf records false).length = records.countP (fun f => decide (3 ≤ f.length)) := by
  induction records with
  | nil => exact ⟨rfl, rfl⟩
  | cons r rest ih =>
    rcases r with _ | ⟨f0, _ | ⟨f1, _ | ⟨f2, t⟩⟩⟩
    · simpa [rowsOf, List.countP_cons] using ih
    · simpa [rowsOf, List.countP_cons] using ih
    · simpa [rowsOf, List.countP_cons] using ih
    · by_cases hu : urlOk (pyStrip f2) <;>
        simp [rowsOf, hu, List.countP_cons, List.filter_cons, ih.1, ih.2]

/-! ### C1 — cleanup of partial files -/

/-- C6 (amended): with the requests client, any response status other
than `200` fails with `httpStatusError` carrying the code, before the
destination file is even opened, so the filesystem is unchanged; with the
urllib fallback, a non-2xx status makes `urlopen` raise, and the failure
surfaces as the generic wrapped `transferError` (carrying the `HTTPError`
cause), not as `httpStatusError` — also with no new file (the destination
did not exist and the cleanup `os.remove` of a missing file is a no-op). -/
theorem claim6_http_status_amended :
    (∀ (re : RemoteBehavior) (fs : FS) (dest : List Char),
      re.connectError = none → re.status ≠ 200 →
      requestsTransfer re fs dest = (fs, .error (.httpStatusError re.status))) ∧
    (∀ (re : RemoteBehavior) (fs : FS) (dest : List Char),
      re.connectError = none → (re.status < 200 ∨ 300 ≤ re.status) →
      fsLookup fs dest = none →
      urllibTransfer re fs dest = (fs, .error (.transferError (.httpError re.status)))) := by
  constructor
  · intro re fs dest hc hs
    unfold requestsTransfer
    rw [hc]
    simp [hs]
  · intro re fs dest hc hs hd
    unfold urllibTransfer
    rw [hc]
    simp [hs, eraseKey_of_lookup_none fs dest hd]

/-- Witness for C6: a 403 in the requests branch. -/
theorem claim6_http_status_amended_witness :
    ((⟨none, 403, [], none⟩ : RemoteBehavior).connectError = none ∧
      (⟨none, 403, [], none⟩ : RemoteBehavior).status ≠ 200) ∧
    requestsTransfer ⟨none, 403, [], none⟩ [] "x.pdf".data =
      ([], .error (.httpStatusError 403)) :=
  ⟨⟨rfl, by decide⟩,
    claim6_http_status_amended.1 ⟨none, 403, [], none⟩ [] "x.pdf".data rfl (by decide)⟩

/-- C6 counterexample: in the urllib fallback branch a 403 response does
not fail with `httpStatusError 403` — the `HTTPError` is caught at line
96 and re-raised at line 100 as the generic wrapped transfer failure. -/
theorem claim6_urllib_status_cex :
    (urllibTransfer ⟨none, 403, [], none⟩ [] "x.pdf".data).2 =
      .error (.transferError (.httpError 403)) ∧
    (urllibTransfer ⟨none, 403, [], none⟩ [] "x.pdf".data).2 ≠
      .error (.httpStatusError 403) ∧
    isErr (urllibTransfer ⟨none, 403, [], none⟩ [] "x.pdf".data).2 = true :=
  ⟨by decide, by decide, by decide⟩

/-! ### C7 — filename derivation -/

theorem startsWithS_append_self (p rest : List Char) :
    startsWithS p (p ++ rest) = true := by
  induction p with
  | nil => rfl
  | cons c cs ih => simp [startsWithS, ih]

theorem endsWithS_append_self (t l : List Char) :
    endsWithS t (l ++ t) = true := by
  unfold endsWithS
  rw [List.reverse_append]
  exact startsWithS_append_self _ _

theorem pyLower_append (a b : List Char) :
    pyLower (a ++ b) = pyLower a ++ pyLower b := by
  simp [pyLower]

theorem pdf_suffix_after_append (n : List Char) :
    endsWithS ".pdf".data (pyLower (n ++ ".pdf".data)) = true := by
  rw [pyLower_append]
  have h : pyLower ".pdf".data = ".pdf".data := by decide
  rw [h]
  exact endsWithS_append_self _ _

/-- C7: the destination filename is the basename of `storageKey` when
`storageKey` is non-empty, otherwise the final path segment of
`presignedUrl` (the last component of `urlparse(url).path`), otherwise
the literal `paper.pdf` (`deriveName` coincides with the claim-side
`claimDerivedName`); the result always ends in `.pdf` case-insensitively;
and when `storageKey` is non-empty the URL plays no part. -/
theorem claim7_filename_derivation (s3key url : List Char) :
    deriveName s3key url = claimDerivedName s3key url ∧
    endsWithS ".pdf".data (pyLower (deriveName s3key url)) = true ∧
    (s3key ≠ [] → ∀ url2 : List Char, deriveName s3key url = deriveName s3key url2) := by
  refine ⟨?_, ?_, ?_⟩
  · by_cases h : s3key = [] <;> simp [deriveName, claimDerivedName, h]
  · have key : ∀ n : List Char,
        endsWithS ".pdf".data
          (pyLower (if endsWithS ".pdf".data (pyLower n) then n else n ++ ".pdf".data)) = true := by
      intro n
      by_cases h : endsWithS ".pdf".data (pyLower n) = true
      · simp [h]
      · simp only [Bool.not_eq_true] at h
        rw [if_neg (by simp [h])]
        exact pdf_suffix_after_append n
    exact key _
  · intro h url2
    simp [deriveName, h]

/-- Witness for C7: with a non-empty storage key the URL is ignored. -/
theorem claim7_filename_derivation_witness :
    ("k".data ≠ ([] : List Char)) ∧
    deriveName "k".data "http://a/u1".data = deriveName "k".data "http://a/u2".data :=
  ⟨by decide,
    (claim7_filename_derivation "k".data "http://a/u1".data).2.2 (by decide) "http://a/u2".data⟩

/-! ### C5 — collision avoidance -/

theorem digitChar_val (d : Nat) (h : d < 10) : (digitChar d).toNat - 48 = d := by
  interval_cases d <;> rfl

theorem natVal_natStrA (fuel : Nat) : ∀ n, n < fuel → natVal (natStrA fuel n) = n := by
  induction fuel with
  | zero => intro n h; omega
  | succ fuel ih =>
    intro n h
    unfold natStrA
    by_cases h10 : n < 10
    · simp only [if_pos h10]
      show (0 * 10 + ((digitChar n).toNat - 48)) = n
      rw [digitChar_val n h10]
      omega
    · simp only [if_neg h10]
      have hd : n / 10 < fuel := by
        have := Nat.div_lt_self (show 0 < n by omega) (show 1 < 10 by omega)
        omega
      unfold natVal
      rw [List.foldl_append]
      show (natVal (natStrA fuel (n / 10))) * 10 + ((digitChar (n % 10)).toNat - 48) = n
      rw [ih (n / 10) hd, digitChar_val (n % 10) (Nat.mod_lt _ (by omega))]
      omega

theorem natStr_inj {m n : Nat} (h : natStr m = natStr n) : m = n := by
  have hm := natVal_natStrA (m + 1) m (by omega)
  have hn := natVal_natStrA (n + 1) n (by omega)
  rw [← hm, ← hn]
  unfold natStr at h
  rw [h]

theorem affix_cancel (pre post : List Char) {x y : List Char}
    (h : pre ++ x ++ post = pre ++ y ++ post) : x = y := by
  rw [List.append_assoc, List.append_assoc] at h
  exact List.append_cancel_right (List.append_cancel_left h)

theorem joinPath_inj (td : List Char) {a b : List Char}
    (h : joinPath td a = joinPath td b) : a = b := by
  unfold joinPath at h
  by_cases htd : td = ['.']
  · simpa [htd] using h
  · simp only [if_neg htd] at h
    have h1 := List.append_cancel_left h
    simpa using h1

theorem destCand_inj (td dest : List Char) {i j : Nat}
    (h : destCand td dest i = destCand td dest j) : i = j := by
  unfold destCand at h
  exact natStr_inj (affix_cancel _ _ (joinPath_inj td h))

theorem mem_keys_of_contains (fs : FS) (p : List Char)
    (h : containsPath fs p = true) : p ∈ fs.map Prod.fst := by
  induction fs with
  | nil => simp [containsPath, fsLookup] at h
  | cons kv rest ih =>
    obtain ⟨k, v⟩ := kv
    by_cases hk : k = p
    · subst hk
      simp only [List.map_cons]
      exact List.mem_cons_self _ _
    · simp only [containsPath, fsLookup, if_neg hk] at h
      simp only [List.map_cons, List.mem_cons]
      exact Or.inr (ih h)

theorem exists_free_probe (fs : FS) (td dest : List Char) :
    ∃ j, 1 ≤ j ∧ j ≤ fs.length + 1 ∧ containsPath fs (destCand td dest j) = false := by
  by_contra hc
  push_neg at hc
  have hall : ∀ j ∈ Finset.Icc 1 (fs.length + 1),
      destCand td dest j ∈ (fs.map Prod.fst).toFinset := by
    intro j hj
    rw [Finset.mem_Icc] at hj
    rw [List.mem_toFinset]
    apply mem_keys_of_contains
    have hb := hc j hj.1 hj.2
    simpa using hb
  have hinj : Set.InjOn (fun j => destCand td dest j)
      (Finset.Icc 1 (fs.length + 1)) := by
    intro a _ b _ hab
    exact destCand_inj td dest hab
  have hcard := Finset.card_le_card_of_injOn _ hall hinj
  rw [Nat.card_Icc] at hcard
  have hle := List.toFinset_card_le (fs.map Prod.fst)
  rw [List.length_map] at hle
  omega

theorem probeLoop_spec (fs : FS) (td dest : List Char) :
    ∀ (fuel i : Nat),
      (∃ j, i ≤ j ∧ j < i + fuel ∧ containsPath fs (destCand td dest j) = false) →
      ∃ k, i ≤ k ∧ probeLoop fs td dest fuel i = destCand td dest k ∧
        containsPath fs (destCand td dest k) = false ∧
        ∀ j, i ≤ j → j < k → containsPath fs (destCand td dest j) = true := by
  intro fuel
  induction fuel with
  | zero =>
    intro i hex
    obtain ⟨j, hj1, hj2, _⟩ := hex
    omega
  | succ fuel ih =>
    intro i hex
    by_cases hc : containsPath fs (destCand td dest i) = true
    · have hstep : probeLoop fs td dest (fuel + 1) i = probeLoop fs td dest fuel (i + 1) := by
        show (if containsPath fs (destCand td dest i) = true then
            probeLoop fs td dest fuel (i + 1) else destCand td dest i) =
          probeLoop fs td dest fuel (i + 1)
        rw [if_pos hc]
      rw [hstep]
      obtain ⟨j, hj1, hj2, hj3⟩ := hex
      have hji : j ≠ i := by
        intro he
        rw [he, hc] at hj3
        exact Bool.noConfusion hj3
      obtain ⟨k, hk1, hk2, hk3, hk4⟩ := ih (i + 1) ⟨j, by omega, by omega, hj3⟩
      refine ⟨k, by omega, hk2, hk3, ?_⟩
      intro j2 hj21 hj22
      by_cases hji2 : j2 = i
      · rw [hji2]; exact hc
      · exact hk4 j2 (by omega) hj22
    · have hstep : probeLoop fs td dest (fuel + 1) i = destCand td dest i := by
        show (if containsPath fs (destCand td dest i) = true then
            probeLoop fs td dest fuel (i + 1) else destCand td dest i) =
          destCand td dest i
        rw [if_neg hc]
      refine ⟨i, le_refl i, hstep, by simpa using hc, ?_⟩
      intro j hj1 hj2
      omega

theorem resolveDest_free (fs : FS) (td dest : List Char) :
    containsPath fs (resolveDest fs td dest) = false := by
  unfold resolveDest
  by_cases hc : containsPath fs dest = true
  · rw [if_pos hc]
    obtain ⟨j, hj1, hj2, hj3⟩ := exists_free_probe fs td dest
    obtain ⟨k, _, hk2, hk3, _⟩ :=
      probeLoop_spec fs td dest (fs.length + 1) 1 ⟨j, hj1, by omega, hj3⟩
    rw [hk2]
    exact hk3
  · rw [if_neg hc]
    simpa using hc

/-- C5 (amended): with `overwrite=False` the resolved destination never
coincides with an existing path; an unoccupied candidate is kept as is;
an occupied candidate is replaced by the probe `"{stem} (k){suffix}"`
with the least index `k ≥ 1` whose path does not exist — the probes are
tried in increasing order, deterministically, and the loop terminates
within `|fs| + 1` probes; writing the resolved file and calling again
yields a different path, so no earlier download is overwritten.  (The
probe suffix is the candidate's own extension — `".pdf"` only when the
extension is missing or literally lower-case `".pdf"`; see the
counterexample for an upper-case `.PDF` extension.) -/
theorem claim5_collision_amended (fs : FS) (td dest : List Char) :
    containsPath fs (resolveDest fs td dest) = false ∧
    (containsPath fs dest = false → resolveDest fs td dest = dest) ∧
    (containsPath fs dest = true →
      ∃ k, 1 ≤ k ∧ resolveDest fs td dest = destCand td dest k ∧
        containsPath fs (destCand td dest k) = false ∧
        ∀ j, 1 ≤ j → j < k → containsPath fs (destCand td dest j) = true) ∧
    (∀ bytes : List Char,
      resolveDest (setFile fs (resolveDest fs td dest) bytes) td dest ≠
        resolveDest fs td dest) := by
  refine ⟨resolveDest_free fs td dest, ?_, ?_, ?_⟩
  · intro hc
    unfold resolveDest
    rw [if_neg (by simp [hc])]
  · intro hc
    unfold resolveDest
    rw [if_pos hc]
    obtain ⟨j, hj1, hj2, hj3⟩ := exists_free_probe fs td dest
    exact probeLoop_spec fs td dest (fs.length + 1) 1 ⟨j, hj1, by omega, hj3⟩
  · intro bytes heq
    have hfree := resolveDest_free (setFile fs (resolveDest fs td dest) bytes) td dest
    rw [heq] at hfree
    unfold containsPath at hfree
    rw [fsLookup_setFile_self] at hfree
    simp at hfree

/-- Witness for C5: one existing file, the first probe is chosen. -/
theorem claim5_collision_amended_witness :
    containsPath [("a.pdf".data, FsEntry.file [])] "a.pdf".data = true ∧
    (∃ k, 1 ≤ k ∧
      resolveDest [("a.pdf".data, FsEntry.file [])] ".".data "a.pdf".data =
        destCand ".".data "a.pdf".data k ∧
      containsPath [("a.pdf".data, FsEntry.file [])]
        (destCand ".".data "a.pdf".data k) = false ∧
      ∀ j, 1 ≤ j → j < k →
        containsPath [("a.pdf".data, FsEntry.file [])]
          (destCand ".".data "a.pdf".data j) = true) :=
  ⟨by decide,
    (claim5_collision_amended [("a.pdf".data, FsEntry.file [])] ".".data
      "a.pdf".data).2.2.1 (by decide)⟩

/-- C5 counterexample: for a destination with an upper-case `.PDF`
extension the probe is `"a (1).PDF"`, not the claimed `"a (1).pdf"` —
the loop re-uses `dest.suffix`, falling back to `".pdf"` only when the
name has no extension. -/
theorem claim5_suffix_case_cex :
    resolveDest [("a.PDF".data, FsEntry.file [])] ".".data "a.PDF".data =
      "a (1).PDF".data ∧
    resolveDest [("a.PDF".data, FsEntry.file [])] ".".data "a.PDF".data ≠
      "a (1).pdf".data :=
  ⟨by decide, by decide⟩

/-! ### C2 — the manifest parser

Claim-side definitions (from the claim's wording): split the file into
lines — as Python's universal-newline reading splits them, at `\n`,
`\r\n` or bare `\r` — split each line on the tab character, keep lines
with at least three fields, strip the first three fields.  The code-side
parser is `csvReader` above; the two agree exactly on quote-free content
whose fields respect the 131072-character field-size limit
(`claim2_parse_amended`) and disagree on quoted content
(`claim2_csv_quoting_cex`). -/

/-- The first line (up to an eventual first newline) and the rest. -/
def breakNl : List Char → List Char × Option (List Char)
  | [] => ([], none)
  | c :: cs =>
    if c = '\n' then ([], some cs)
    else ((c :: (breakNl cs).1), (breakNl cs).2)

/-- Head of `breakNl`. -/
def firstNl (cs : List Char) : List Char := (breakNl cs).1

/-- Tail of `breakNl`. -/
def restNl (cs : List Char) : Option (List Char) := (breakNl cs).2

/-- Line-feed lines: split on `\n` only, without the terminators, and
with no extra empty line after a trailing newline (the `\n`-layer of
the universal-newline split below). -/
def lfLines (cs : List Char) : List (List Char) :=
  let ls := splitCh '\n' cs
  if ls.getLast? = some [] then ls.dropLast else ls

/-- Universal-newline normalisation: `\r\n` and bare `\r` become `\n`,
as the file layer of `open(..., newline="")` treats them when splitting
lines. -/
def normalizeNl : List Char → List Char
  | [] => []
  | [c] => if c = '\r' then ['\n'] else [c]
  | c :: c2 :: cs =>
    if c = '\r' then
      if c2 = '\n' then '\n' :: normalizeNl cs
      else '\n' :: normalizeNl (c2 :: cs)
    else c :: normalizeNl (c2 :: cs)

/-- The lines of the file as Python line iteration with `newline=""`
yields them: terminators `\n`, `\r\n` and bare `\r` all end a line, the
terminators are stripped, and a trailing terminator adds no empty line. -/
def fileLines (cs : List Char) : List (List Char) :=
  lfLines (normalizeNl cs)

/-- Claim-side reading of one line as a record: an empty line carries no
fields, any other line is split on the tab character. -/
def lineToRec (l : List Char) : List (List Char) :=
  if l = [] then [] else splitCh '\t' l

/-- Claim-side row of one line: at least three tab-separated fields, the
first three stripped; fewer fields (or an empty line) is skipped. -/
def specRowOfLine (l : List Char) : Option ManifestRow :=
  match splitCh '\t' l with
  | f0 :: f1 :: f2 :: _ => some ⟨pyStrip f0, pyStrip f1, pyStrip f2⟩
  | _ => none

/-- Claim-side parse of the whole manifest. -/
def specRows (cs : List Char) : List ManifestRow :=
  (fileLines cs).filterMap specRowOfLine

/-- A well-formed line: at least three tab-separated fields. -/
def wellFormedLine (l : List Char) : Bool :=
  decide (3 ≤ (splitCh '\t' l).length)

/-- Line- and tab-splitting in the accumulator form of the CSV machine:
`none` is start-of-record, `some (df, pf)` carries the finished fields
and the pending field of the current record. -/
def tabR : Option (List (List Char) × List Char) → List Char → List (List (List Char))
  | none, [] => []
  | some (df, pf), [] => [df ++ [pf]]
  | none, c :: cs =>
    if c = '\n' then [] :: tabR none cs
    else if c = '\t' then tabR (some ([[]], [])) cs
    else tabR (some ([], [c])) cs
  | some (df, pf), c :: cs =>
    if c = '\n' then (df ++ [pf]) :: tabR none cs
    else if c = '\t' then tabR (some (df ++ [pf], [])) cs
    else tabR (some (df, pf ++ [c])) cs

/-- States of the universal-newline splitter `tabU`: start of a record,
just after a record-terminating bare `\r` (a following `\n` belongs to
the terminator), or inside a record with its finished fields and pending
field. -/
inductive TState
  | start
  | afterCR
  | field (df : List (List Char)) (pf : List Char)

/-- Line- and tab-splitting over the raw content with universal-newline
terminators (`\n`, `\r\n`, bare `\r`), mirroring the quote-free part of
`csvRun` state for state. -/
def tabU : TState → List Char → List (List (List Char))
  | .start, [] => []
  | .afterCR, [] => []
  | .field df pf, [] => [df ++ [pf]]
  | .start, c :: cs =>
    if c = '\n' then [] :: tabU .start cs
    else if c = '\r' then [] :: tabU .afterCR cs
    else if c = '\t' then tabU (.field [[]] []) cs
    else tabU (.field [] [c]) cs
  | .afterCR, c :: cs =>
    if c = '\n' then tabU .start cs
    else if c = '\r' then [] :: tabU .afterCR cs
    else if c = '\t' then tabU (.field [[]] []) cs
    else tabU (.field [] [c]) cs
  | .field df pf, c :: cs =>
    if c = '\n' then (df ++ [pf]) :: tabU .start cs
    else if c = '\r' then (df ++ [pf]) :: tabU .afterCR cs
    else if c = '\t' then tabU (.field (df ++ [pf]) []) cs
    else tabU (.field df (pf ++ [c])) cs

/-- Drop one leading line feed (the `\n` of a `\r\n` pair whose `\r` has
already been consumed). -/
def dropLf : List Char → List Char
  | [] => []
  | c :: cs => if c = '\n' then cs else c :: cs

/-- `fieldsFit k cs` holds when, reading `cs` with `k` characters already
in the current field, every append stays under the csv field-size limit:
equivalently, every tab- or newline-separated field of `cs` has at most
`fieldLimit` (131072) characters (`k` counting toward the first one). -/
def fieldsFit (k : Nat) : List Char → Bool
  | [] => true
  | c :: cs =>
    if c = '\n' then fieldsFit 0 cs
    else if c = '\r' then fieldsFit 0 cs
    else if c = '\t' then fieldsFit 0 cs
    else decide (k < fieldLimit) && fieldsFit (k + 1) cs

theorem csvRun_sr_cons (fld : List Char) (rcd : List (List Char))
    (out : List (List (List Char))) (c : Char) (cs : List Char) :
    csvRun .sr fld rcd out (c :: cs) =
      if c = '\n' then csvRun .sr [] [] ([] :: out) cs
      else if c = '\r' then csvRun .cr [] [] ([] :: out) cs
      else if c = '\t' then csvRun .sf [] [[]] out cs
      else if c = '"' then csvRun .q [] [] out cs
      else csvRun .inf [c] [] out cs := rfl

theorem csvRun_sf_cons (fld : List Char) (rcd : List (List Char))
    (out : List (List (List Char))) (c : Char) (cs : List Char) :
    csvRun .sf fld rcd out (c :: cs) =
      if c = '\n' then csvRun .sr [] [] ((([] : List Char) :: rcd).reverse :: out) cs
      else if c = '\r' then csvRun .cr [] [] ((([] : List Char) :: rcd).reverse :: out) cs
      else if c = '\t' then csvRun .sf [] ([] :: rcd) out cs
      else if c = '"' then csvRun .q [] rcd out cs
      else csvRun .inf [c] rcd out cs := rfl

theorem csvRun_inf_cons (fld : List Char) (rcd : List (List Char))
    (out : List (List (List Char))) (c : Char) (cs : List Char) :
    csvRun .inf fld rcd out (c :: cs) =
      if c = '\n' then csvRun .sr [] [] ((fld.reverse :: rcd).reverse :: out) cs
      else if c = '\r' then csvRun .cr [] [] ((fld.reverse :: rcd).reverse :: out) cs
      else if c = '\t' then csvRun .sf [] (fld.reverse :: rcd) out cs
      else if fld.length ≥ fieldLimit then .error "field larger than field limit"
      else csvRun .inf (c :: fld) rcd out cs := rfl

theorem csvRun_cr_cons (fld : List Char) (rcd : List (List Char))
    (out : List (List (List Char))) (c : Char) (cs : List Char) :
    csvRun .cr fld rcd out (c :: cs) =
      if c = '\n' then csvRun .sr [] [] out cs
      else if c = '\r' then csvRun .cr [] [] ([] :: out) cs
      else if c = '\t' then csvRun .sf [] [[]] out cs
      else if c = '"' then csvRun .q [] [] out cs
      else csvRun .inf [c] [] out cs := rfl

theorem tabU_start_cons (c : Char) (cs : List Char) :
    tabU .start (c :: cs) =
      if c = '\n' then [] :: tabU .start cs
      else if c = '\r' then [] :: tabU .afterCR cs
      else if c = '\t' then tabU (.field [[]] []) cs
      else tabU (.field [] [c]) cs := rfl

theorem tabU_afterCR_cons (c : Char) (cs : List Char) :
    tabU .afterCR (c :: cs) =
      if c = '\n' then tabU .start cs
      else if c = '\r' then [] :: tabU .afterCR cs
      else if c = '\t' then tabU (.field [[]] []) cs
      else tabU (.field [] [c]) cs := rfl

theorem tabU_field_cons (df : List (List Char)) (pf : List Char) (c : Char)
    (cs : List Char) :
    tabU (.field df pf) (c :: cs) =
      if c = '\n' then (df ++ [pf]) :: tabU .start cs
      else if c = '\r' then (df ++ [pf]) :: tabU .afterCR cs
      else if c = '\t' then tabU (.field (df ++ [pf]) []) cs
      else tabU (.field df (pf ++ [c])) cs := rfl

theorem fieldsFit_cons (k : Nat) (c : Char) (cs : List Char) :
    fieldsFit k (c :: cs) =
      if c = '\n' then fieldsFit 0 cs
      else if c = '\r' then fieldsFit 0 cs
      else if c = '\t' then fieldsFit 0 cs
      else decide (k < fieldLimit) && fieldsFit (k + 1) cs := rfl

theorem tabR_none_cons (c : Char) (cs : List Char) :
    tabR none (c :: cs) =
      if c = '\n' then [] :: tabR none cs
      else if c = '\t' then tabR (some ([[]], [])) cs
      else tabR (some ([], [c])) cs := rfl

theorem tabR_some_cons (df : List (List Char)) (pf : List Char) (c : Char)
    (cs : List Char) :
    tabR (some (df, pf)) (c :: cs) =
      if c = '\n' then (df ++ [pf]) :: tabR none cs
      else if c = '\t' then tabR (some (df ++ [pf], [])) cs
      else tabR (some (df, pf ++ [c])) cs := rfl

theorem splitCh_ne_nil (sep : Char) (l : List Char) : splitCh sep l ≠ [] := by
  cases l with
  | nil => simp [splitCh]
  | cons c cs =>
    by_cases h : c = sep
    · simp [splitCh, h]
    · simp only [splitCh, if_neg h]
      rcases hs : splitCh sep cs with _ | ⟨r, rs⟩ <;> simp

theorem splitCh_no_sep (sep : Char) (l : List Char) (h : sep ∉ l) :
    splitCh sep l = [l] := by
  induction l with
  | nil => rfl
  | cons c cs ih =>
    have hc : ¬ c = sep := fun he => h (he ▸ List.mem_cons_self c cs)
    have hcs : sep ∉ cs := fun hm => h (List.mem_cons_of_mem c hm)
    simp only [splitCh, if_neg hc, ih hcs]

theorem splitCh_append_sep (sep : Char) (a b : List Char) (h : sep ∉ a) :
    splitCh sep (a ++ sep :: b) = a :: splitCh sep b := by
  induction a with
  | nil => simp [splitCh]
  | cons c cs ih =>
    have hc : ¬ c = sep := fun he => h (he ▸ List.mem_cons_self c cs)
    have hcs : sep ∉ cs := fun hm => h (List.mem_cons_of_mem c hm)
    show splitCh sep (c :: (cs ++ sep :: b)) = (c :: cs) :: splitCh sep b
    simp only [splitCh, if_neg hc]
    rw [ih hcs]

theorem fieldsFit_push {k : Nat} {c : Char} {cs : List Char}
    (hn : c ≠ '\n') (hr : c ≠ '\r') (ht : c ≠ '\t')
    (h : fieldsFit k (c :: cs) = true) :
    k < fieldLimit ∧ fieldsFit (k + 1) cs = true := by
  rw [fieldsFit_cons, if_neg hn, if_neg hr, if_neg ht] at h
  simpa using h

theorem csvRun_clean (cs : List Char) (hclean : ∀ c ∈ cs, c ≠ '"') :
    (∀ out, fieldsFit 0 cs = true →
      csvRun .sr [] [] out cs = .ok (out.reverse ++ tabU .start cs)) ∧
    (∀ out, fieldsFit 0 cs = true →
      csvRun .cr [] [] out cs = .ok (out.reverse ++ tabU .afterCR cs)) ∧
    (∀ fld rcd out, fieldsFit 0 cs = true →
      csvRun .sf fld rcd out cs =
        .ok (out.reverse ++ tabU (.field rcd.reverse []) cs)) ∧
    (∀ fld rcd out, fieldsFit fld.length cs = true →
      csvRun .inf fld rcd out cs =
        .ok (out.reverse ++ tabU (.field rcd.reverse fld.reverse) cs)) := by
  induction cs with
  | nil =>
    refine ⟨?_, ?_, ?_, ?_⟩
    · intro out _
      show Except.ok (csvFinish .sr [] [] out) = _
      simp [csvFinish, tabU]
    · intro out _
      show Except.ok (csvFinish .cr [] [] out) = _
      simp [csvFinish, tabU]
    · intro fld rcd out _
      show Except.ok (csvFinish .sf fld rcd out) = _
      simp [csvFinish, tabU, List.reverse_cons]
    · intro fld rcd out _
      show Except.ok (csvFinish .inf fld rcd out) = _
      simp [csvFinish, tabU, List.reverse_cons]
  | cons c cs ih =>
    have hnq : c ≠ '"' := hclean c (List.mem_cons_self c cs)
    have hcs : ∀ x ∈ cs, x ≠ '"' :=
      fun x hx => hclean x (List.mem_cons_of_mem c hx)
    obtain ⟨ih1, ih2, ih3, ih4⟩ := ih hcs
    refine ⟨?_, ?_, ?_, ?_⟩
    · intro out hf
      by_cases hn : c = '\n'
      · subst hn
        rw [fieldsFit_cons, if_pos rfl] at hf
        rw [csvRun_sr_cons, if_pos rfl, ih1 _ hf, tabU_start_cons, if_pos rfl]
        simp [List.reverse_cons, List.append_assoc]
      · by_cases hr : c = '\r'
        · subst hr
          rw [fieldsFit_cons, if_neg (by decide), if_pos rfl] at hf
          rw [csvRun_sr_cons, if_neg (by decide), if_pos rfl, ih2 _ hf,
            tabU_start_cons, if_neg (by decide), if_pos rfl]
          simp [List.reverse_cons, List.append_assoc]
        · by_cases ht : c = '\t'
          · subst ht
            rw [fieldsFit_cons, if_neg (by decide), if_neg (by decide),
              if_pos rfl] at hf
            rw [csvRun_sr_cons, if_neg (by decide), if_neg (by decide), if_pos rfl,
              ih3 [] [[]] out hf, tabU_start_cons, if_neg (by decide),
              if_neg (by decide), if_pos rfl]
            simp
          · obtain ⟨hlt, hnext⟩ := fieldsFit_push hn hr ht hf
            rw [csvRun_sr_cons, if_neg hn, if_neg hr, if_neg ht, if_neg hnq,
              ih4 [c] [] out hnext, tabU_start_cons, if_neg hn, if_neg hr,
              if_neg ht]
            simp
    · intro out hf
      by_cases hn : c = '\n'
      · subst hn
        rw [fieldsFit_cons, if_pos rfl] at hf
        rw [csvRun_cr_cons, if_pos rfl, ih1 _ hf, tabU_afterCR_cons, if_pos rfl]
      · by_cases hr : c = '\r'
        · subst hr
          rw [fieldsFit_cons, if_neg (by decide), if_pos rfl] at hf
          rw [csvRun_cr_cons, if_neg (by decide), if_pos rfl, ih2 _ hf,
            tabU_afterCR_cons, if_neg (by decide), if_pos rfl]
          simp [List.reverse_cons, List.append_assoc]
        · by_cases ht : c = '\t'
          · subst ht
            rw [fieldsFit_cons, if_neg (by decide), if_neg (by decide),
              if_pos rfl] at hf
            rw [csvRun_cr_cons, if_neg (by decide), if_neg (by decide), if_pos rfl,
              ih3 [] [[]] out hf, tabU_afterCR_cons, if_neg (by decide),
              if_neg (by decide), if_pos rfl]
            simp
          · obtain ⟨hlt, hnext⟩ := fieldsFit_push hn hr ht hf
            rw [csvRun_cr_cons, if_neg hn, if_neg hr, if_neg ht, if_neg hnq,
              ih4 [c] [] out hnext, tabU_afterCR_cons, if_neg hn, if_neg hr,
              if_neg ht]
            simp
    · intro fld rcd out hf
      by_cases hn : c = '\n'
      · subst hn
        rw [fieldsFit_cons, if_pos rfl] at hf
        rw [csvRun_sf_cons, if_pos rfl, ih1 _ hf, tabU_field_cons, if_pos rfl]
        simp [List.reverse_cons, List.append_assoc]
      · by_cases hr : c = '\r'
        · subst hr
          rw [fieldsFit_cons, if_neg (by decide), if_pos rfl] at hf
          rw [csvRun_sf_cons, if_neg (by decide), if_pos rfl, ih2 _ hf,
            tabU_field_cons, if_neg (by decide), if_pos rfl]
          simp [List.reverse_cons, List.append_assoc]
        · by_cases ht : c = '\t'
          · subst ht
            rw [fieldsFit_cons, if_neg (by decide), if_neg (by decide),
              if_pos rfl] at hf
            rw [csvRun_sf_cons, if_neg (by decide), if_neg (by decide), if_pos rfl,
              ih3 [] ([] :: rcd) out hf, tabU_field_cons, if_neg (by decide),
              if_neg (by decide), if_pos rfl]
            simp [List.reverse_cons]
          · obtain ⟨hlt, hnext⟩ := fieldsFit_push hn hr ht hf
            rw [csvRun_sf_cons, if_neg hn, if_neg hr, if_neg ht, if_neg hnq,
              ih4 [c] rcd out hnext, tabU_field_cons, if_neg hn, if_neg hr,
              if_neg ht]
            simp
    · intro fld rcd out hf
      by_cases hn : c = '\n'
      · subst hn
        rw [fieldsFit_cons, if_pos rfl] at hf
        rw [csvRun_inf_cons, if_pos rfl, ih1 _ hf, tabU_field_cons, if_pos rfl]
        simp [List.reverse_cons, List.append_assoc]
      · by_cases hr : c = '\r'
        · subst hr
          rw [fieldsFit_cons, if_neg (by decide), if_pos rfl] at hf
          rw [csvRun_inf_cons, if_neg (by decide), if_pos rfl, ih2 _ hf,
            tabU_field_cons, if_neg (by decide), if_pos rfl]
          simp [List.reverse_cons, List.append_assoc]
        · by_cases ht : c = '\t'
          · subst ht
            rw [fieldsFit_cons, if_neg (by decide), if_neg (by decide),
              if_pos rfl] at hf
            rw [csvRun_inf_cons, if_neg (by decide), if_neg (by decide), if_pos rfl,
              ih3 [] (fld.reverse :: rcd) out hf, tabU_field_cons,
              if_neg (by decide), if_neg (by decide), if_pos rfl]
            simp [List.reverse_cons]
          · obtain ⟨hlt, hnext⟩ := fieldsFit_push hn hr ht hf
            have hfc : fieldsFit (c :: fld).length cs = true := by
              simpa [List.length_cons] using hnext
            rw [csvRun_inf_cons, if_neg hn, if_neg hr, if_neg ht,
              if_neg (by omega), ih4 (c :: fld) rcd out hfc, tabU_field_cons,
              if_neg hn, if_neg hr, if_neg ht]
            simp [List.reverse_cons]

theorem splitCh_nl (l : List Char) :
    splitCh '\n' l = firstNl l ::
      (match restNl l with
       | none => ([] : List (List Char))
       | some r => splitCh '\n' r) := by
  induction l with
  | nil => rfl
  | cons c cs ih =>
    by_cases hn : c = '\n'
    · subst hn
      rfl
    · have hb1 : firstNl (c :: cs) = c :: firstNl cs := by
        simp [firstNl, breakNl, if_neg hn]
      have hb2 : restNl (c :: cs) = restNl cs := by
        simp [restNl, breakNl, if_neg hn]
      rw [hb1, hb2]
      simp only [splitCh, if_neg hn]
      rw [ih]

theorem breakNl_none (cs : List Char) (h : restNl cs = none) : firstNl cs = cs := by
  induction cs with
  | nil => rfl
  | cons c cs ih =>
    by_cases hn : c = '\n'
    · subst hn
      simp [restNl, breakNl] at h
    · simp only [restNl, breakNl, if_neg hn] at h
      simp only [firstNl, breakNl, if_neg hn]
      rw [show (breakNl cs).1 = firstNl cs from rfl, ih h]

theorem lfLines_eq (cs : List Char) :
    lfLines cs =
      match restNl cs with
      | none => if cs = [] then [] else [firstNl cs]
      | some r => firstNl cs :: lfLines r := by
  cases hres : restNl cs with
  | none =>
    have hsp : splitCh '\n' cs = [firstNl cs] := by rw [splitCh_nl cs, hres]
    have hfc : firstNl cs = cs := breakNl_none cs hres
    by_cases hnil : cs = []
    · subst hnil
      rfl
    · simp only [lfLines]
      rw [hsp, if_neg (by simp [hfc, hnil])]
      simp [hnil]
  | some r =>
    have hsp : splitCh '\n' cs = firstNl cs :: splitCh '\n' r := by
      rw [splitCh_nl cs, hres]
    rcases h2 : splitCh '\n' r with _ | ⟨x, xs⟩
    · exact absurd h2 (splitCh_ne_nil _ _)
    · simp only [lfLines]
      rw [hsp, h2, List.getLast?_cons_cons]
      by_cases hl : (x :: xs).getLast? = some []
      · rw [if_pos hl, if_pos hl]
        rfl
      · rw [if_neg hl, if_neg hl]

theorem lfLines_cons_nl (cs : List Char) :
    lfLines ('\n' :: cs) = [] :: lfLines cs := by
  rw [lfLines_eq]
  rfl

theorem lfLines_cons_ch (c : Char) (cs : List Char) (hn : c ≠ '\n') :
    lfLines (c :: cs) = (c :: firstNl cs) ::
      (match restNl cs with
       | none => ([] : List (List Char))
       | some r => lfLines r) := by
  rw [lfLines_eq (c :: cs)]
  have h1 : restNl (c :: cs) = restNl cs := by simp [restNl, breakNl, if_neg hn]
  have h2 : firstNl (c :: cs) = c :: firstNl cs := by simp [firstNl, breakNl, if_neg hn]
  rw [h1, h2]
  cases hres : restNl cs with
  | none => simp
  | some r => rfl

theorem tabR_spec (cs : List Char) :
    (∀ (df : List (List Char)) (pf : List Char), '\t' ∉ pf → '\n' ∉ pf →
      tabR (some (df, pf)) cs =
        (df ++ splitCh '\t' (pf ++ firstNl cs)) ::
          (match restNl cs with
           | none => ([] : List (List (List Char)))
           | some r => (lfLines r).map lineToRec)) ∧
    tabR none cs = (lfLines cs).map lineToRec := by
  induction cs with
  | nil =>
    constructor
    · intro df pf hpt hpn
      show [df ++ [pf]] = _
      rw [show firstNl [] = [] from rfl, List.append_nil,
        splitCh_no_sep '\t' pf hpt]
      rfl
    · rfl
  | cons c cs ih =>
    obtain ⟨ih1, ih2⟩ := ih
    constructor
    · intro df pf hpt hpn
      by_cases hn : c = '\n'
      · subst hn
        rw [tabR_some_cons, if_pos rfl, ih2]
        rw [show firstNl ('\n' :: cs) = [] from rfl]
        rw [show restNl ('\n' :: cs) = some cs from rfl]
        rw [List.append_nil, splitCh_no_sep '\t' pf hpt]
      · by_cases ht : c = '\t'
        · subst ht
          rw [tabR_some_cons, if_neg (by decide), if_pos rfl]
          rw [ih1 (df ++ [pf]) [] (by simp) (by simp)]
          rw [show firstNl ('\t' :: cs) = '\t' :: firstNl cs from rfl]
          rw [show restNl ('\t' :: cs) = restNl cs from rfl]
          rw [List.nil_append, splitCh_append_sep '\t' pf (firstNl cs) hpt]
          rw [List.append_assoc]
          rfl
        · rw [tabR_some_cons, if_neg hn, if_neg ht]
          have hpt2 : '\t' ∉ pf ++ [c] := by
            simp only [List.mem_append, List.mem_singleton]
            rintro (h | h)
            · exact hpt h
            · exact ht h.symm
          have hpn2 : '\n' ∉ pf ++ [c] := by
            simp only [List.mem_append, List.mem_singleton]
            rintro (h | h)
            · exact hpn h
            · exact hn h.symm
          rw [ih1 df (pf ++ [c]) hpt2 hpn2]
          have h1 : firstNl (c :: cs) = c :: firstNl cs := by
            simp [firstNl, breakNl, if_neg hn]
          have h2 : restNl (c :: cs) = restNl cs := by
            simp [restNl, breakNl, if_neg hn]
          rw [h1, h2, List.append_assoc]
          rfl
    · by_cases hn : c = '\n'
      · subst hn
        rw [tabR_none_cons, if_pos rfl, ih2, lfLines_cons_nl]
        rfl
      · by_cases ht : c = '\t'
        · subst ht
          rw [tabR_none_cons, if_neg (by decide), if_pos rfl]
          rw [ih1 [[]] [] (by simp) (by simp)]
          rw [lfLines_cons_ch '\t' cs (by decide), List.map_cons]
          have hline : lineToRec ('\t' :: firstNl cs) =
              [] :: splitCh '\t' (firstNl cs) := by
            simp [lineToRec, splitCh]
          rw [hline, List.nil_append]
          congr 1
          cases hres : restNl cs <;> rfl
        · rw [tabR_none_cons, if_neg hn, if_neg ht]
          have hpt2 : '\t' ∉ [c] := by
            simp only [List.mem_singleton]
            exact fun h => ht h.symm
          have hpn2 : '\n' ∉ [c] := by
            simp only [List.mem_singleton]
            exact fun h => hn h.symm
          rw [ih1 [] [c] hpt2 hpn2]
          rw [lfLines_cons_ch c cs hn, List.map_cons]
          have hline : lineToRec (c :: firstNl cs) =
              splitCh '\t' (c :: firstNl cs) := by
            simp [lineToRec]
          rw [hline, List.nil_append]
          have hfc : [c] ++ firstNl cs = c :: firstNl cs := rfl
          rw [hfc]
          congr 1
          cases hres : restNl cs <;> rfl

theorem normalizeNl_ch (c : Char) (cs : List Char) (h : c ≠ '\r') :
    normalizeNl (c :: cs) = c :: normalizeNl cs := by
  cases cs with
  | nil => simp [normalizeNl, h]
  | cons c2 cs2 => simp [normalizeNl, h]

theorem normalizeNl_cr (cs : List Char) :
    normalizeNl ('\r' :: cs) = '\n' :: normalizeNl (dropLf cs) := by
  cases cs with
  | nil => rfl
  | cons c2 cs2 =>
    by_cases h : c2 = '\n'
    · subst h
      simp [normalizeNl, dropLf]
    · simp [normalizeNl, dropLf, h]

theorem dropLf_ch (c : Char) (cs : List Char) (h : c ≠ '\n') :
    dropLf (c :: cs) = c :: cs := by
  simp [dropLf, h]

theorem tabU_norm (cs : List Char) :
    tabU .start cs = tabR none (normalizeNl cs) ∧
    tabU .afterCR cs = tabR none (normalizeNl (dropLf cs)) ∧
    (∀ df pf, tabU (.field df pf) cs = tabR (some (df, pf)) (normalizeNl cs)) := by
  induction cs with
  | nil => exact ⟨rfl, rfl, fun df pf => rfl⟩
  | cons c cs ih =>
    obtain ⟨ih1, ih2, ih3⟩ := ih
    refine ⟨?_, ?_, ?_⟩
    · by_cases hn : c = '\n'
      · subst hn
        rw [tabU_start_cons, if_pos rfl, ih1, normalizeNl_ch _ _ (by decide),
          tabR_none_cons, if_pos rfl]
      · by_cases hr : c = '\r'
        · subst hr
          rw [tabU_start_cons, if_neg (by decide), if_pos rfl, ih2,
            normalizeNl_cr, tabR_none_cons, if_pos rfl]
        · by_cases ht : c = '\t'
          · subst ht
            rw [tabU_start_cons, if_neg (by decide), if_neg (by decide), if_pos rfl,
              ih3 [[]] [], normalizeNl_ch _ _ (by decide), tabR_none_cons,
              if_neg (by decide), if_pos rfl]
          · rw [tabU_start_cons, if_neg hn, if_neg hr, if_neg ht, ih3 [] [c],
              normalizeNl_ch _ _ hr, tabR_none_cons, if_neg hn, if_neg ht]
    · by_cases hn : c = '\n'
      · subst hn
        rw [tabU_afterCR_cons, if_pos rfl, ih1]
        rw [show dropLf ('\n' :: cs) = cs from by simp [dropLf]]
      · by_cases hr : c = '\r'
        · subst hr
          rw [tabU_afterCR_cons, if_neg (by decide), if_pos rfl, ih2,
            dropLf_ch _ _ (by decide), normalizeNl_cr, tabR_none_cons, if_pos rfl]
        · by_cases ht : c = '\t'
          · subst ht
            rw [tabU_afterCR_cons, if_neg (by decide), if_neg (by decide),
              if_pos rfl, ih3 [[]] [], dropLf_ch _ _ (by decide),
              normalizeNl_ch _ _ (by decide), tabR_none_cons, if_neg (by decide),
              if_pos rfl]
          · rw [tabU_afterCR_cons, if_neg hn, if_neg hr, if_neg ht, ih3 [] [c],
              dropLf_ch _ _ hn, normalizeNl_ch _ _ hr, tabR_none_cons,
              if_neg hn, if_neg ht]
    · intro df pf
      by_cases hn : c = '\n'
      · subst hn
        rw [tabU_field_cons, if_pos rfl, ih1, normalizeNl_ch _ _ (by decide),
          tabR_some_cons, if_pos rfl]
      · by_cases hr : c = '\r'
        · subst hr
          rw [tabU_field_cons, if_neg (by decide), if_pos rfl, ih2,
            normalizeNl_cr, tabR_some_cons, if_pos rfl]
        · by_cases ht : c = '\t'
          · subst ht
            rw [tabU_field_cons, if_neg (by decide), if_neg (by decide), if_pos rfl,
              ih3 (df ++ [pf]) [], normalizeNl_ch _ _ (by decide), tabR_some_cons,
              if_neg (by decide), if_pos rfl]
          · rw [tabU_field_cons, if_neg hn, if_neg hr, if_neg ht,
              ih3 df (pf ++ [c]), normalizeNl_ch _ _ hr, tabR_some_cons,
              if_neg hn, if_neg ht]

theorem rowsOf_map_lineToRec (lines : List (List Char)) :
    rowsOf (lines.map lineToRec) false = lines.filterMap specRowOfLine := by
  induction lines with
  | nil => rfl
  | cons l ls ih =>
    rw [List.map_cons, List.filterMap_cons]
    by_cases hl : l = []
    · subst hl
      rw [show lineToRec [] = [] from rfl]
      rw [show specRowOfLine [] = none from rfl]
      show rowsOf (List.map lineToRec ls) false = _
      rw [ih]
    · rw [show lineToRec l = splitCh '\t' l from if_neg hl]
      rcases hs : splitCh '\t' l with _ | ⟨f0, _ | ⟨f1, _ | ⟨f2, t⟩⟩⟩
      · exact absurd hs (splitCh_ne_nil _ _)
      · rw [show specRowOfLine l = none by simp [specRowOfLine, hs]]
        show rowsOf (List.map lineToRec ls) false = _
        rw [ih]
      · rw [show specRowOfLine l = none by simp [specRowOfLine, hs]]
        show rowsOf (List.map lineToRec ls) false = _
        rw [ih]
      · rw [show specRowOfLine l = some ⟨pyStrip f0, pyStrip f1, pyStrip f2⟩ by
          simp [specRowOfLine, hs]]
        show (if false && !urlOk (pyStrip f2) then rowsOf (List.map lineToRec ls) false
          else ⟨pyStrip f0, pyStrip f1, pyStrip f2⟩ :: rowsOf (List.map lineToRec ls) false) = _
        rw [ih]
        simp

theorem filterMap_length_lines (lines : List (List Char)) :
    (lines.filterMap specRowOfLine).length = (lines.filter wellFormedLine).length := by
  induction lines with
  | nil => rfl
  | cons l ls ih =>
    rw [List.filterMap_cons, List.filter_cons]
    rcases hs : splitCh '\t' l with _ | ⟨f0, _ | ⟨f1, _ | ⟨f2, t⟩⟩⟩
    · exact absurd hs (splitCh_ne_nil _ _)
    · rw [show specRowOfLine l = none by simp [specRowOfLine, hs]]
      rw [show wellFormedLine l = false by simp [wellFormedLine, hs]]
      simpa using ih
    · rw [show specRowOfLine l = none by simp [specRowOfLine, hs]]
      rw [show wellFormedLine l = false by simp [wellFormedLine, hs]]
      simpa using ih
    · rw [show specRowOfLine l = some ⟨pyStrip f0, pyStrip f1, pyStrip f2⟩ by
        simp [specRowOfLine, hs]]
      rw [show wellFormedLine l = true by simp [wellFormedLine, hs]]
      simpa using ih

/-- C2 (amended): on manifest content free of double quotes whose
tab-separated fields all fit the csv field-size limit (131072
characters), the code's parser (`csv.reader` with tab delimiter reading
through the universal-newline file layer, then the line 43-49 loop with
`skip_missing` off) produces exactly the claim's rows — each line
(delimited by `\n`, `\r\n` or bare `\r`) split on the tab character,
lines that are empty or have fewer than three fields silently skipped,
the first three fields of every kept line whitespace-stripped — and the
number of parsed rows equals the number of well-formed lines.  (On
content with a double quote the CSV quoting rules break the per-line tab
split: see the counterexample; a field beyond the size limit makes the
reader raise `csv.Error` instead of parsing.) -/
theorem claim2_parse_amended (content : List Char)
    (hquote : ∀ c ∈ content, c ≠ '"') (hfit : fieldsFit 0 content = true) :
    (csvReader content).map (fun recs => rowsOf recs false) = .ok (specRows content) ∧
    (specRows content).length =
      ((fileLines content).filter wellFormedLine).length := by
  constructor
  · unfold csvReader
    rw [(csvRun_clean content hquote).1 [] hfit]
    show Except.ok (rowsOf ([].reverse ++ tabU .start content) false) = _
    rw [List.reverse_nil, List.nil_append, (tabU_norm content).1,
      (tabR_spec (normalizeNl content)).2, rowsOf_map_lineToRec]
    rfl
  · exact filterMap_length_lines (fileLines content)

/-- Witness for C2 on a concrete quote-free manifest with CRLF and bare
CR line endings. -/
theorem claim2_parse_amended_witness :
    ((∀ c ∈ "a\tb\thttp://x\r\nbad\rc\td\thttp://y\n".data, c ≠ '"') ∧
      fieldsFit 0 "a\tb\thttp://x\r\nbad\rc\td\thttp://y\n".data = true) ∧
    ((csvReader "a\tb\thttp://x\r\nbad\rc\td\thttp://y\n".data).map
        (fun recs => rowsOf recs false) =
        .ok (specRows "a\tb\thttp://x\r\nbad\rc\td\thttp://y\n".data) ∧
      (specRows "a\tb\thttp://x\r\nbad\rc\td\thttp://y\n".data).length =
        ((fileLines "a\tb\thttp://x\r\nbad\rc\td\thttp://y\n".data).filter
          wellFormedLine).length) :=
  ⟨⟨by decide, by decide⟩,
    claim2_parse_amended "a\tb\thttp://x\r\nbad\rc\td\thttp://y\n".data
      (by decide) (by decide)⟩

/-- C2 counterexample: on the single-line manifest `"a<TAB>b"<TAB>c` —
three tab-separated fields, hence one well-formed line — the code's
`csv.reader` applies the quoting rules, reads only two fields
(`a<TAB>b` and `c`), and the line is dropped: the parsed sequence is
empty while the claim's tab-splitting parse keeps one row. -/
theorem claim2_csv_quoting_cex :
    (csvReader "\"a\tb\"\tc".data).map (fun recs => rowsOf recs false) = .ok [] ∧
    specRows "\"a\tb\"\tc".data = [⟨"\"a".data, "b\"".data, "c".data⟩] ∧
    (csvReader "\"a\tb\"\tc".data).map (fun recs => rowsOf recs false) ≠
      .ok (specRows "\"a\tb\"\tc".data) :=
  ⟨by decide, by decide, by decide⟩
